import Mathlib

/-
Verification of the plow HTTP load generator (six-ddc/plow).

This file gives a shallow embedding, in Lean 4, of the parts of the
program that the specification talks about, and proves (or refutes)
the specified properties against that embedding:

  * the byte-counting connection wrapper (`MyConn.Read` / `MyConn.Write`,
    `ThroughputInterceptorDial`);
  * the running-stats accumulator (`Stats.Update`, `Stats.Mean`,
    `Stats.Stddev` from report.go);
  * the aggregator loop (`StreamReport.Collect`) together with the
    status-class classification done by `Requester.DoRequest`;
  * the idempotent record-queue closing (`Requester.closeRecord`) and the
    aggregator's done channel;
  * the worker-pool request semaphore in `Requester.Run`;
  * the `--rate` flag parser (`rateFlagValue.Set` / `String` in main.go),
    including a model of Go's `strconv.Atoi` and `time.ParseDuration`;
  * the chart server request handler (`Charts.Handler` in charts.go) and
    the `StreamReport.Charts` view;
  * `addMissingPort` (with `net.JoinHostPort`).

Modelling conventions: Go `int64` values are modelled as `Int` (with an
explicit two's-complement wrap, `wrap64`, where the source uses atomic
64-bit adds whose overflow behaviour is part of the spec); Go `float64`
sample arithmetic is modelled exactly over `ℚ`, except `math.Sqrt`,
which is modelled by `Real.sqrt`; Go maps that are only ever summed are
modelled as association lists.  Concurrency is modelled by folding a
transition function over an arbitrary interleaving of events.
-/

/-! ## addMissingPort (part_000, lines 155-165) and net.JoinHostPort -/

/-- Model of Go's `net.JoinHostPort` (go >= 1.9, and this repo requires
go 1.16): a host is bracketed before the port is appended exactly when
it contains a colon. -/
def joinHostPort (host port : String) : String :=
  if host.data.contains ':' then "[" ++ host ++ "]:" ++ port
  else host ++ ":" ++ port

/-- `addMissingPort` from part_000: an address already containing a colon is
returned unchanged; otherwise port 80 (or 443 under TLS) is joined on. -/
def addMissingPort (addr : String) (isTLS : Bool) : String :=
  if addr.data.contains ':' then addr
  else joinHostPort addr (if isTLS then "443" else "80")

/-! ## The byte-counting connection wrapper (part_000, lines 54-90) -/

/-- Two's-complement wrap of a 64-bit signed integer
(`2 ^ 63 = 9223372036854775808`, `2 ^ 64 = 18446744073709551616`). -/
def wrap64 (x : Int) : Int :=
  (x + 9223372036854775808) % 18446744073709551616 - 9223372036854775808

/-- The two shared counters pointed to by `MyConn.r` and `MyConn.w`
(`Requester.readBytes` / `Requester.writeBytes`, both Go `int64`). -/
structure ConnCounters where
  r : Int
  w : Int
deriving DecidableEq, Repr

/-- `MyConn.Read`: performs the underlying read (whose result is the pair
`(sz, err)` passed in), and adds `sz` to the shared read counter exactly
when `err == nil`.  Returns the updated counters and the propagated
result. -/
def myConnRead (c : ConnCounters) (sz : Nat) (err : Option String) :
    ConnCounters × Nat × Option String :=
  match err with
  | none => ({ c with r := wrap64 (c.r + sz) }, sz, none)
  | some e => (c, sz, some e)

/-- `MyConn.Write`: same as `myConnRead` with the write counter. -/
def myConnWrite (c : ConnCounters) (sz : Nat) (err : Option String) :
    ConnCounters × Nat × Option String :=
  match err with
  | none => ({ c with w := wrap64 (c.w + sz) }, sz, none)
  | some e => (c, sz, some e)

/-- One I/O operation on some connection produced by
`ThroughputInterceptorDial`: the size and error returned by the wrapped
`net.Conn`. -/
inductive ConnEvent where
  | read (sz : Nat) (err : Option String)
  | write (sz : Nat) (err : Option String)
deriving DecidableEq, Repr

/-- Effect of one operation on the shared counters. -/
def connStep (c : ConnCounters) (e : ConnEvent) : ConnCounters :=
  match e with
  | .read sz err => (myConnRead c sz err).1
  | .write sz err => (myConnWrite c sz err).1

/-- The counters after an arbitrary sequence of reads and writes (across
all connections of a run; the adds are atomic, so any interleaving is a
sequence). -/
def connRun (c : ConnCounters) (evs : List ConnEvent) : ConnCounters :=
  evs.foldl connStep c

/-- Total bytes of the successful reads in a sequence of operations. -/
def readOkBytes : List ConnEvent → Nat
  | [] => 0
  | .read sz none :: t => sz + readOkBytes t
  | _ :: t => readOkBytes t

/-- Total bytes of the successful writes in a sequence of operations. -/
def writeOkBytes : List ConnEvent → Nat
  | [] => 0
  | .write sz none :: t => sz + writeOkBytes t
  | _ :: t => writeOkBytes t

theorem wrap64_eq_of_bounds (x : Int) (h1 : -9223372036854775808 ≤ x)
    (h2 : x < 9223372036854775808) : wrap64 x = x := by
  unfold wrap64
  omega

theorem readOkBytes_cons_le (e : ConnEvent) (t : List ConnEvent) :
    readOkBytes t ≤ readOkBytes (e :: t) := by
  cases e with
  | read sz err => cases err <;> simp [readOkBytes]
  | write sz err => simp [readOkBytes]

theorem writeOkBytes_cons_le (e : ConnEvent) (t : List ConnEvent) :
    writeOkBytes t ≤ writeOkBytes (e :: t) := by
  cases e with
  | read sz err => simp [writeOkBytes]
  | write sz err => cases err <;> simp [writeOkBytes]

/-- Exact value of the counters after a run, provided the final totals do
not overflow the 64-bit counters (the spec scopes inputs "well below
saturation"). -/
theorem connRun_exact : ∀ (evs : List ConnEvent) (c : ConnCounters),
    -9223372036854775808 ≤ c.r → -9223372036854775808 ≤ c.w →
    c.r + readOkBytes evs < 9223372036854775808 →
    c.w + writeOkBytes evs < 9223372036854775808 →
    (connRun c evs).r = c.r + readOkBytes evs ∧
    (connRun c evs).w = c.w + writeOkBytes evs := by
  intro evs
  induction evs with
  | nil => intro c _ _ _ _; simp [connRun, readOkBytes, writeOkBytes]
  | cons e t ih =>
    intro c hr0 hw0 hr hw
    cases e with
    | read sz err =>
      cases err with
      | none =>
        simp only [readOkBytes, writeOkBytes] at hr hw
        have hwr : wrap64 (c.r + sz) = c.r + sz := by
          apply wrap64_eq_of_bounds <;> omega
        have hih := ih ⟨c.r + sz, c.w⟩ (by simp; omega) (by simpa using hw0)
          (by simp; omega) (by simpa using hw)
        simp only [connRun, List.foldl_cons, connStep, myConnRead, hwr,
          readOkBytes, writeOkBytes] at *
        exact ⟨by rw [hih.1]; push_cast; ring, hih.2⟩
      | some e =>
        simp only [readOkBytes, writeOkBytes] at hr hw
        have hih := ih c hr0 hw0 (by omega) (by omega)
        simpa [connRun, connStep, myConnRead, readOkBytes, writeOkBytes] using hih
    | write sz err =>
      cases err with
      | none =>
        simp only [readOkBytes, writeOkBytes] at hr hw
        have hwr : wrap64 (c.w + sz) = c.w + sz := by
          apply wrap64_eq_of_bounds <;> omega
        have hih := ih ⟨c.r, c.w + sz⟩ (by simpa using hr0) (by simp; omega)
          (by simpa using hr) (by simp; omega)
        simp only [connRun, List.foldl_cons, connStep, myConnWrite, hwr,
          readOkBytes, writeOkBytes] at *
        exact ⟨hih.1, by rw [hih.2]; push_cast; ring⟩
      | some e =>
        simp only [readOkBytes, writeOkBytes] at hr hw
        have hih := ih c hr0 hw0 (by omega) (by omega)
        simpa [connRun, connStep, myConnWrite, readOkBytes, writeOkBytes] using hih

/-- C3: a successful read/write of `n` bytes adds `n` to the respective
shared counter, a failed read/write leaves both counters unchanged even
when it reports a positive count, and over any sequence of operations
(within the 64-bit range the spec scopes to) both counters are
monotonically non-decreasing, ending at exactly the sum of the
successfully transferred bytes. -/
theorem myConn_counts_bytes (c : ConnCounters) (evs : List ConnEvent)
    (hr0 : -9223372036854775808 ≤ c.r) (hw0 : -9223372036854775808 ≤ c.w)
    (hr : c.r + readOkBytes evs < 9223372036854775808)
    (hw : c.w + writeOkBytes evs < 9223372036854775808) :
    (∀ sz e, myConnRead c sz (some e) = (c, sz, some e)) ∧
    (∀ sz e, myConnWrite c sz (some e) = (c, sz, some e)) ∧
    (connRun c evs).r = c.r + readOkBytes evs ∧
    (connRun c evs).w = c.w + writeOkBytes evs ∧
    c.r ≤ (connRun c evs).r ∧ c.w ≤ (connRun c evs).w := by
  have h := connRun_exact evs c hr0 hw0 hr hw
  refine ⟨fun sz e => rfl, fun sz e => rfl, h.1, h.2, ?_, ?_⟩
  · rw [h.1]; omega
  · rw [h.2]; omega

/-- Witness for C3 at a concrete run: a successful 3-byte read, a failed
read reporting 9 bytes, and a successful 4-byte write. -/
theorem myConn_counts_bytes_witness :
    (-9223372036854775808 ≤ (0 : Int) ∧
      (0 : Int) + readOkBytes [.read 3 none, .read 9 (some "broken"), .write 4 none]
        < 9223372036854775808 ∧
      (0 : Int) + writeOkBytes [.read 3 none, .read 9 (some "broken"), .write 4 none]
        < 9223372036854775808) ∧
    (connRun ⟨0, 0⟩ [.read 3 none, .read 9 (some "broken"), .write 4 none]).r =
      0 + readOkBytes [.read 3 none, .read 9 (some "broken"), .write 4 none] ∧
    (connRun ⟨0, 0⟩ [.read 3 none, .read 9 (some "broken"), .write 4 none]).w =
      0 + writeOkBytes [.read 3 none, .read 9 (some "broken"), .write 4 none] :=
  ⟨⟨by decide, by decide, by decide⟩,
    (myConn_counts_bytes ⟨0, 0⟩ _ (by decide) (by decide) (by decide) (by decide)).2.2.1,
    (myConn_counts_bytes ⟨0, 0⟩ _ (by decide) (by decide) (by decide) (by decide)).2.2.2.1⟩

/-- C10: `addMissingPort` returns any address containing a colon (such as
an IPv6 literal) unchanged — so IPv6 literals never get a default port
appended — and otherwise joins on port 80, or 443 under TLS
(`JoinHostPort` brackets only colon-containing hosts, so a colon-free
address is always returned as plain `addr:port`). -/
theorem addMissingPort_spec (addr : String) (isTLS : Bool) :
    (addr.data.contains ':' = true → addMissingPort addr isTLS = addr) ∧
    (addr.data.contains ':' = false →
      addMissingPort addr isTLS = addr ++ ":" ++ (if isTLS then "443" else "80")) := by
  refine ⟨fun h => ?_, fun h => ?_⟩
  · have h2 : ':' ∈ addr.data := by simpa using h
    simp [addMissingPort, h2]
  · have h2 : ':' ∉ addr.data := by simpa using h
    simp [addMissingPort, joinHostPort, h2]

/-- Witness for C10: `"localhost"` has no colon and gets `:80`; the IPv6
literal `"::1"` is returned unchanged (no default port appended); the
colon-free `"host%x"` gets a plain (unbracketed) `:80`. -/
theorem addMissingPort_spec_witness :
    ("localhost".data.contains ':' = false ∧
      addMissingPort "localhost" false = "localhost:80") ∧
    ("::1".data.contains ':' = true ∧ addMissingPort "::1" true = "::1") ∧
    ("host%x".data.contains ':' = false ∧
      addMissingPort "host%x" false = "host%x:80") :=
  ⟨⟨by decide, by
      have h := (addMissingPort_spec "localhost" false).2 (by decide)
      simpa using h⟩,
    ⟨by decide, (addMissingPort_spec "::1" true).1 (by decide)⟩,
    ⟨by decide, by
      have h := (addMissingPort_spec "host%x" false).2 (by decide)
      simpa using h⟩⟩

/-! ## The running-stats accumulator (report.go, lines 23-65)

Go `float64` sample arithmetic is modelled exactly over `ℚ`; the
`count` field is the Go `int64`, modelled as `Int`.  `math.Sqrt` is
modelled by `Real.sqrt` (for the non-negative radicands that arise both
agree; `math.Sqrt` of a negative number is NaN, which no claim relies
on). -/

structure Stats where
  count : Int
  sum : ℚ
  sumSq : ℚ
  min : ℚ
  max : ℚ
deriving DecidableEq, Repr

/-- The zero value `&Stats{}` (also the result of `Stats.Reset`). -/
def statsInit : Stats := ⟨0, 0, 0, 0, 0⟩

/-- `Stats.Update`: the count is incremented first, so the `count == 1`
tests below see the new count; the first sample always installs itself
as both min and max. -/
def Stats.update (s : Stats) (v : ℚ) : Stats :=
  { count := s.count + 1
    sum := s.sum + v
    sumSq := s.sumSq + v * v
    min := if v < s.min ∨ s.count + 1 = 1 then v else s.min
    max := if s.max < v ∨ s.count + 1 = 1 then v else s.max }

/-- `Stats.Mean`: `sum/count`, guarded only against `count == 0`. -/
def Stats.mean (s : Stats) : ℚ :=
  if s.count = 0 then 0 else s.sum / (s.count : ℚ)

/-- `Stats.Stddev`: `√((count·sumSq − sum²) / (count·(count−1)))`, with the
division guard returning 0 when `count*(count-1) == 0`. -/
noncomputable def Stats.stddev (s : Stats) : ℝ :=
  let num : ℚ := (s.count : ℚ) * s.sumSq - s.sum ^ 2
  let div : ℚ := ((s.count * (s.count - 1) : Int) : ℚ)
  if div = 0 then 0 else Real.sqrt ((num / div : ℚ))

/-- The accumulator after inserting the samples of `l` in order, starting
from the zero value (as `StreamReport.insert` does for each record's
latency). -/
def statsOfList (l : List ℚ) : Stats := l.foldl Stats.update statsInit

theorem stats_stddev_nonneg (s : Stats) : 0 ≤ s.stddev := by
  unfold Stats.stddev
  dsimp only
  split
  · exact le_refl 0
  · exact Real.sqrt_nonneg _

/-- C5 (amended): `Mean` is `sum/count` for every nonzero count and 0 only
at count 0; `Stddev` is 0 exactly on counts 0 and 1 and otherwise is the
square root of `(count·sumSq − sum²)/(count·(count−1))`.  (The claim's
"Mean is 0 whenever count < 2" fails at count 1, see the
counterexample.) -/
theorem stats_mean_stddev_spec (s : Stats) (hc : 0 ≤ s.count) :
    (s.count = 0 → s.mean = 0) ∧
    (s.count ≠ 0 → s.mean = s.sum / (s.count : ℚ)) ∧
    (s.count < 2 → s.stddev = 0) ∧
    (2 ≤ s.count →
      s.stddev = Real.sqrt ((((s.count : ℚ) * s.sumSq - s.sum ^ 2) /
        ((s.count : ℚ) * ((s.count : ℚ) - 1)) : ℚ))) := by
  refine ⟨fun h => by simp [Stats.mean, h], fun h => by simp [Stats.mean, h], ?_, ?_⟩
  · intro h
    have h01 : s.count = 0 ∨ s.count = 1 := by omega
    have hdiv : s.count * (s.count - 1) = 0 := by rcases h01 with h | h <;> simp [h]
    simp [Stats.stddev, hdiv]
  · intro h
    have hdiv : s.count * (s.count - 1) ≠ 0 := by
      have h1 : s.count ≠ 0 := by omega
      have h2 : s.count - 1 ≠ 0 := by omega
      exact mul_ne_zero h1 h2
    have hdivq : ((s.count * (s.count - 1) : Int) : ℚ) ≠ 0 := by
      exact_mod_cast hdiv
    simp only [Stats.stddev, hdivq, if_false]
    congr 1
    push_cast
    ring

/-- Witness for C5 (amended) at the concrete accumulator state
count 3, sum 6, sumSq 14 (samples 1, 2, 3). -/
theorem stats_mean_stddev_spec_witness :
    0 ≤ (⟨3, 6, 14, 1, 3⟩ : Stats).count ∧
    (((⟨3, 6, 14, 1, 3⟩ : Stats).count = 0 → (⟨3, 6, 14, 1, 3⟩ : Stats).mean = 0) ∧
      ((⟨3, 6, 14, 1, 3⟩ : Stats).count ≠ 0 →
        (⟨3, 6, 14, 1, 3⟩ : Stats).mean = (⟨3, 6, 14, 1, 3⟩ : Stats).sum /
          ((⟨3, 6, 14, 1, 3⟩ : Stats).count : ℚ)) ∧
      ((⟨3, 6, 14, 1, 3⟩ : Stats).count < 2 → (⟨3, 6, 14, 1, 3⟩ : Stats).stddev = 0) ∧
      (2 ≤ (⟨3, 6, 14, 1, 3⟩ : Stats).count →
        (⟨3, 6, 14, 1, 3⟩ : Stats).stddev =
          Real.sqrt (((((⟨3, 6, 14, 1, 3⟩ : Stats).count : ℚ) *
              (⟨3, 6, 14, 1, 3⟩ : Stats).sumSq - (⟨3, 6, 14, 1, 3⟩ : Stats).sum ^ 2) /
            (((⟨3, 6, 14, 1, 3⟩ : Stats).count : ℚ) *
              (((⟨3, 6, 14, 1, 3⟩ : Stats).count : ℚ) - 1)) : ℚ)))) :=
  ⟨by decide, stats_mean_stddev_spec ⟨3, 6, 14, 1, 3⟩ (by decide)⟩

/-- C5 counterexample: after a single `Update` with sample 5 the count is
1 (< 2) yet `Mean` returns 5, not 0 — `Mean` is zero-guarded only at
count 0, refuting "both defined as 0 whenever count < 2". -/
theorem stats_mean_count_one_counterexample :
    (Stats.update statsInit 5).count = 1 ∧
    (Stats.update statsInit 5).count < 2 ∧
    (Stats.update statsInit 5).mean = 5 ∧ (5 : ℚ) ≠ 0 := by
  refine ⟨by decide, by decide, ?_, by norm_num⟩
  norm_num [Stats.update, Stats.mean, statsInit]

/-- Invariant tying an accumulator state to the (non-empty) list of
samples inserted so far. -/
def statsGood (s : Stats) (m : List ℚ) : Prop :=
  m ≠ [] ∧ s.count = m.length ∧ s.sum = m.sum ∧
  s.min ∈ m ∧ (∀ x ∈ m, s.min ≤ x) ∧ s.max ∈ m ∧ (∀ x ∈ m, x ≤ s.max)

theorem statsGood_update {s : Stats} {m : List ℚ} (v : ℚ) (h : statsGood s m) :
    statsGood (s.update v) (m ++ [v]) := by
  obtain ⟨hne, hcount, hsum, hminMem, hminLe, hmaxMem, hmaxLe⟩ := h
  have hlen : 1 ≤ m.length := by
    cases m with
    | nil => exact absurd rfl hne
    | cons a t => simp
  have hc1 : s.count + 1 ≠ 1 := by omega
  refine ⟨by simp, ?_, ?_, ?_, ?_, ?_, ?_⟩
  · simp [Stats.update, hcount]
  · simp [Stats.update, hsum]
  · by_cases hv : v < s.min
    · simp [Stats.update, hv]
    · simp only [Stats.update, hv, hc1, false_or, if_false]
      exact List.mem_append_left _ hminMem
  · intro x hx
    rcases List.mem_append.mp hx with hx | hx
    · by_cases hv : v < s.min
      · simp only [Stats.update, hv, true_or, if_true]
        exact le_trans (le_of_lt hv) (hminLe x hx)
      · simp only [Stats.update, hv, hc1, false_or, if_false]
        exact hminLe x hx
    · have hxv : x = v := by simpa using hx
      rw [hxv]
      by_cases hv : v < s.min
      · simp [Stats.update, hv]
      · simp only [Stats.update, hv, hc1, false_or, if_false]
        exact le_of_not_lt hv
  · by_cases hv : s.max < v
    · simp [Stats.update, hv]
    · simp only [Stats.update, hv, hc1, false_or, if_false]
      exact List.mem_append_left _ hmaxMem
  · intro x hx
    rcases List.mem_append.mp hx with hx | hx
    · by_cases hv : s.max < v
      · simp only [Stats.update, hv, true_or, if_true]
        exact le_trans (hmaxLe x hx) (le_of_lt hv)
      · simp only [Stats.update, hv, hc1, false_or, if_false]
        exact hmaxLe x hx
    · have hxv : x = v := by simpa using hx
      rw [hxv]
      by_cases hv : s.max < v
      · simp [Stats.update, hv]
      · simp only [Stats.update, hv, hc1, false_or, if_false]
        exact le_of_not_lt hv

theorem statsGood_foldl : ∀ (t : List ℚ) (s : Stats) (m : List ℚ),
    statsGood s m → statsGood (t.foldl Stats.update s) (m ++ t) := by
  intro t
  induction t with
  | nil => intro s m h; simpa using h
  | cons v t ih =>
    intro s m h
    have := ih (s.update v) (m ++ [v]) (statsGood_update v h)
    simpa using this

theorem statsGood_single (v : ℚ) : statsGood (Stats.update statsInit v) [v] := by
  refine ⟨by simp, by simp [Stats.update, statsInit], by simp [Stats.update, statsInit],
    ?_, ?_, ?_, ?_⟩ <;> simp [Stats.update, statsInit]

theorem statsGood_statsOfList (l : List ℚ) (h : l ≠ []) :
    statsGood (statsOfList l) l := by
  cases l with
  | nil => exact absurd rfl h
  | cons v t =>
    have := statsGood_foldl t (Stats.update statsInit v) [v] (statsGood_single v)
    simpa [statsOfList] using this

theorem list_mul_length_le_sum : ∀ (m : List ℚ) (a : ℚ),
    (∀ x ∈ m, a ≤ x) → a * m.length ≤ m.sum := by
  intro m
  induction m with
  | nil => intro a _; simp
  | cons x t ih =>
    intro a h
    have hx : a ≤ x := h x (List.mem_cons_self x t)
    have ht := ih a (fun y hy => h y (List.mem_cons_of_mem x hy))
    simp only [List.sum_cons, List.length_cons]
    push_cast
    nlinarith

theorem list_sum_le_mul_length : ∀ (m : List ℚ) (a : ℚ),
    (∀ x ∈ m, x ≤ a) → m.sum ≤ a * m.length := by
  intro m
  induction m with
  | nil => intro a _; simp
  | cons x t ih =>
    intro a h
    have hx : x ≤ a := h x (List.mem_cons_self x t)
    have ht := ih a (fun y hy => h y (List.mem_cons_of_mem x hy))
    simp only [List.sum_cons, List.length_cons]
    push_cast
    nlinarith

/-- C6: after any non-empty sequence of `Update`s, `min` is the least and
`max` the greatest of the inserted samples (every sample contributes:
the count is the number of samples and the sum their total), and the
accumulator satisfies `min ≤ Mean ≤ max` and `Stddev ≥ 0`. -/
theorem stats_update_min_max_mean (l : List ℚ) (h : l ≠ []) :
    (statsOfList l).count = l.length ∧
    (statsOfList l).sum = l.sum ∧
    ((statsOfList l).min ∈ l ∧ ∀ x ∈ l, (statsOfList l).min ≤ x) ∧
    ((statsOfList l).max ∈ l ∧ ∀ x ∈ l, x ≤ (statsOfList l).max) ∧
    (statsOfList l).min ≤ (statsOfList l).mean ∧
    (statsOfList l).mean ≤ (statsOfList l).max ∧
    0 ≤ (statsOfList l).stddev := by
  obtain ⟨hne, hcount, hsum, hminMem, hminLe, hmaxMem, hmaxLe⟩ := statsGood_statsOfList l h
  have hlen : 1 ≤ l.length := by
    cases l with
    | nil => exact absurd rfl hne
    | cons a t => simp
  have hcq : ((statsOfList l).count : ℚ) = (l.length : ℚ) := by
    rw [hcount]; push_cast; ring
  have hcpos : (0 : ℚ) < ((statsOfList l).count : ℚ) := by
    rw [hcq]
    exact_mod_cast hlen
  have hcne : (statsOfList l).count ≠ 0 := by
    intro h0
    rw [h0] at hcpos
    simp at hcpos
  have hmean : (statsOfList l).mean = (statsOfList l).sum / ((statsOfList l).count : ℚ) := by
    simp [Stats.mean, hcne]
  refine ⟨hcount, hsum, ⟨hminMem, hminLe⟩, ⟨hmaxMem, hmaxLe⟩, ?_, ?_, stats_stddev_nonneg _⟩
  · rw [hmean, le_div_iff₀ hcpos, hsum, hcq]
    exact list_mul_length_le_sum l _ hminLe
  · rw [hmean, div_le_iff₀ hcpos, hsum, hcq]
    exact list_sum_le_mul_length l _ hmaxLe

/-- Witness for C6 at the sample list `[3, 1, 2]`. -/
theorem stats_update_min_max_mean_witness :
    ([3, 1, 2] : List ℚ) ≠ [] ∧
    ((statsOfList [3, 1, 2]).count = ([3, 1, 2] : List ℚ).length ∧
      (statsOfList [3, 1, 2]).sum = ([3, 1, 2] : List ℚ).sum ∧
      ((statsOfList [3, 1, 2]).min ∈ ([3, 1, 2] : List ℚ) ∧
        ∀ x ∈ ([3, 1, 2] : List ℚ), (statsOfList [3, 1, 2]).min ≤ x) ∧
      ((statsOfList [3, 1, 2]).max ∈ ([3, 1, 2] : List ℚ) ∧
        ∀ x ∈ ([3, 1, 2] : List ℚ), x ≤ (statsOfList [3, 1, 2]).max) ∧
      (statsOfList [3, 1, 2]).min ≤ (statsOfList [3, 1, 2]).mean ∧
      (statsOfList [3, 1, 2]).mean ≤ (statsOfList [3, 1, 2]).max ∧
      0 ≤ (statsOfList [3, 1, 2]).stddev) :=
  ⟨by decide, stats_update_min_max_mean [3, 1, 2] (by decide)⟩

/-! ## Records, status classification and the aggregator
(part_000 `DoRequest` lines 248-287; report.go `Collect` lines 138-157)

The quantile sketch and histogram that `StreamReport.insert` also feeds
are third-party estimators outside every claim and are not carried in
the state; the fields below are exactly the ones the claims touch. -/

/-- `ReportRecord`: `cost` is a Go `time.Duration` (int64 nanoseconds). -/
structure ReportRecord where
  cost : Int
  code : String
  error : String
  readBytes : Int
  writeBytes : Int
deriving DecidableEq, Repr

/-- Outcome of the HTTP call inside `DoRequest`: either the client
returned an error, or a response with a status code arrived and draining
its body either succeeded or failed. -/
inductive ReqOutcome where
  | transportErr (msg : String)
  | success (status : Nat) (drainErr : Option String)
deriving DecidableEq, Repr

/-- The `switch resp.StatusCode() / 100` classification in `DoRequest`:
statuses 100-599 map to `"1xx"`..`"5xx"`, everything else leaves the
class empty. -/
def statusClass (status : Nat) : String :=
  match status / 100 with
  | 1 => "1xx"
  | 2 => "2xx"
  | 3 => "3xx"
  | 4 => "4xx"
  | 5 => "5xx"
  | _ => ""

/-- `Requester.DoRequest` writing into a (pooled) record `rr`: a
transport error stores the message with an empty code; a drained success
stores the status class with an empty error; a drain error overrides the
class with an empty code and the message. -/
def doRequest (cost : Int) (o : ReqOutcome) (rr : ReportRecord) : ReportRecord :=
  match o with
  | .transportErr msg => { rr with cost := cost, code := "", error := msg }
  | .success st none => { rr with cost := cost, code := statusClass st, error := "" }
  | .success _st (some msg) => { rr with cost := cost, code := "", error := msg }

/-- Increment of one key in a Go `map[string]int64`, as an association
list (`s.codes[r.code]++`). -/
def bump : List (String × Nat) → String → List (String × Nat)
  | [], k => [(k, 1)]
  | (k', v) :: rest, k =>
    if k' = k then (k', v + 1) :: rest else (k', v) :: bump rest k

/-- Sum of a counter map's values. -/
def mapSum (m : List (String × Nat)) : Nat := (m.map Prod.snd).sum

/-- The aggregator state mutated by `StreamReport.Collect` (the fields of
`StreamReport` the claims are about). -/
structure SRState where
  latencyStats : Stats
  latencyWithinSecTemp : Stats
  codes : List (String × Nat)
  errors : List (String × Nat)
  readBytes : Int
  writeBytes : Int
deriving DecidableEq, Repr

/-- The aggregator's handling of one received record: every record's cost
is inserted into the latency accumulators; `codes` is bumped only for a
non-empty code and `errors` only for a non-empty error message; byte
counters are overwritten. -/
def collectStep (s : SRState) (r : ReportRecord) : SRState :=
  { latencyStats := s.latencyStats.update (r.cost : ℚ)
    latencyWithinSecTemp := s.latencyWithinSecTemp.update (r.cost : ℚ)
    codes := if r.code ≠ "" then bump s.codes r.code else s.codes
    errors := if r.error ≠ "" then bump s.errors r.error else s.errors
    readBytes := r.readBytes
    writeBytes := r.writeBytes }

/-- The state `NewStreamReport` starts from: empty maps, zero stats. -/
def collectInit : SRState := ⟨statsInit, statsInit, [], [], 0, 0⟩

/-- The aggregator state after consuming a sequence of records. -/
def collect (records : List ReportRecord) : SRState :=
  records.foldl collectStep collectInit

theorem mapSum_bump (m : List (String × Nat)) (k : String) :
    mapSum (bump m k) = mapSum m + 1 := by
  induction m with
  | nil => simp [bump, mapSum]
  | cons p rest ih =>
    obtain ⟨k', v⟩ := p
    by_cases h : k' = k
    · simp [bump, h, mapSum]
      omega
    · simp only [bump, h, if_false, mapSum, List.map_cons, List.sum_cons]
      simp only [mapSum] at ih
      omega

theorem collectStep_count (s : SRState) (r : ReportRecord) :
    (collectStep s r).latencyStats.count = s.latencyStats.count + 1 := rfl

theorem collectFold_count : ∀ (records : List ReportRecord) (s : SRState),
    (records.foldl collectStep s).latencyStats.count =
      s.latencyStats.count + records.length := by
  intro records
  induction records with
  | nil => intro s; simp
  | cons r t ih =>
    intro s
    rw [List.foldl_cons, ih (collectStep s r), collectStep_count, List.length_cons]
    push_cast
    ring

theorem collectFold_codes : ∀ (records : List ReportRecord) (s : SRState),
    mapSum (records.foldl collectStep s).codes =
      mapSum s.codes + records.countP (fun r => decide (r.code ≠ "")) := by
  intro records
  induction records with
  | nil => intro s; simp
  | cons r t ih =>
    intro s
    rw [List.foldl_cons, ih (collectStep s r), List.countP_cons]
    by_cases h : r.code = ""
    · simp [collectStep, h]
    · simp [collectStep, h, mapSum_bump]
      omega

theorem collectFold_errors : ∀ (records : List ReportRecord) (s : SRState),
    mapSum (records.foldl collectStep s).errors =
      mapSum s.errors + records.countP (fun r => decide (r.error ≠ "")) := by
  intro records
  induction records with
  | nil => intro s; simp
  | cons r t ih =>
    intro s
    rw [List.foldl_cons, ih (collectStep s r), List.countP_cons]
    by_cases h : r.error = ""
    · simp [collectStep, h]
    · simp [collectStep, h, mapSum_bump]
      omega

theorem record_partition_identity : ∀ (records : List ReportRecord),
    records.length + records.countP (fun r => decide (r.code ≠ "" ∧ r.error ≠ "")) =
      records.countP (fun r => decide (r.code ≠ "")) +
      records.countP (fun r => decide (r.error ≠ "")) +
      records.countP (fun r => decide (r.code = "" ∧ r.error = "")) := by
  intro records
  induction records with
  | nil => simp
  | cons r t ih =>
    simp only [List.length_cons, List.countP_cons]
    by_cases hc : r.code = "" <;> by_cases he : r.error = "" <;>
      simp [hc, he] at ih ⊢ <;> omega

/-- C1 (amended): after the aggregator consumes any record sequence, the
count is the number of records, `Σ codes` counts exactly the records
with a non-empty status class and `Σ errors` exactly those with a
non-empty error message, so
`count + #(both non-empty) = Σ codes + Σ errors + #(both empty)`.
`DoRequest` never produces a record with both fields non-empty, and a
drained success whose status is outside 100-599 produces a record with
BOTH fields empty — it joins neither map (not the error bucket), so
`count = Σ codes + Σ errors` holds exactly when no consumed record has
both fields empty. -/
theorem collect_count_partition (records : List ReportRecord) :
    (collect records).latencyStats.count = records.length ∧
    mapSum (collect records).codes = records.countP (fun r => decide (r.code ≠ "")) ∧
    mapSum (collect records).errors = records.countP (fun r => decide (r.error ≠ "")) ∧
    ((collect records).latencyStats.count : Int) +
        records.countP (fun r => decide (r.code ≠ "" ∧ r.error ≠ "")) =
      mapSum (collect records).codes + mapSum (collect records).errors +
        records.countP (fun r => decide (r.code = "" ∧ r.error = "")) ∧
    (∀ cost o rr, (doRequest cost o rr).code = "" ∨ (doRequest cost o rr).error = "") ∧
    ((∀ r ∈ records, (r.code ≠ "" ∧ r.error = "") ∨ (r.code = "" ∧ r.error ≠ "")) →
      ((collect records).latencyStats.count : Int) =
        mapSum (collect records).codes + mapSum (collect records).errors) := by
  have hcount : (collect records).latencyStats.count = records.length := by
    have h := collectFold_count records collectInit
    rw [show collectInit.latencyStats.count = 0 from rfl, zero_add] at h
    exact h
  have hcodes : mapSum (collect records).codes =
      records.countP (fun r => decide (r.code ≠ "")) := by
    have h := collectFold_codes records collectInit
    rw [show mapSum collectInit.codes = 0 from rfl, Nat.zero_add] at h
    exact h
  have herrors : mapSum (collect records).errors =
      records.countP (fun r => decide (r.error ≠ "")) := by
    have h := collectFold_errors records collectInit
    rw [show mapSum collectInit.errors = 0 from rfl, Nat.zero_add] at h
    exact h
  have hid := record_partition_identity records
  refine ⟨hcount, hcodes, herrors, ?_, ?_, ?_⟩
  · rw [hcount, hcodes, herrors]
    omega
  · intro cost o rr
    cases o with
    | transportErr msg => left; rfl
    | success _st derr => cases derr with
      | none => right; rfl
      | some msg => left; rfl
  · intro hone
    have hboth : records.countP (fun r => decide (r.code ≠ "" ∧ r.error ≠ "")) = 0 := by
      rw [List.countP_eq_zero]
      intro r hr
      rcases hone r hr with ⟨h1, h2⟩ | ⟨h1, h2⟩ <;> simp [h1, h2]
    have hempty : records.countP (fun r => decide (r.code = "" ∧ r.error = "")) = 0 := by
      rw [List.countP_eq_zero]
      intro r hr
      rcases hone r hr with ⟨h1, h2⟩ | ⟨h1, h2⟩ <;> simp [h1, h2]
    rw [hcount, hcodes, herrors]
    rw [hboth, hempty] at hid
    omega

/-- Witness for C1 (amended) on records built by `DoRequest`: a drained
200 response, a transport error, and a drained 404. -/
theorem collect_count_partition_witness :
    (∀ r ∈ [doRequest 5 (.success 200 none) ⟨0, "", "", 0, 0⟩,
            doRequest 7 (.transportErr "connection refused") ⟨0, "", "", 0, 0⟩,
            doRequest 9 (.success 404 none) ⟨0, "", "", 0, 0⟩],
        (r.code ≠ "" ∧ r.error = "") ∨ (r.code = "" ∧ r.error ≠ "")) ∧
    ((collect [doRequest 5 (.success 200 none) ⟨0, "", "", 0, 0⟩,
               doRequest 7 (.transportErr "connection refused") ⟨0, "", "", 0, 0⟩,
               doRequest 9 (.success 404 none) ⟨0, "", "", 0, 0⟩]).latencyStats.count : Int) =
      mapSum (collect [doRequest 5 (.success 200 none) ⟨0, "", "", 0, 0⟩,
               doRequest 7 (.transportErr "connection refused") ⟨0, "", "", 0, 0⟩,
               doRequest 9 (.success 404 none) ⟨0, "", "", 0, 0⟩]).codes +
      mapSum (collect [doRequest 5 (.success 200 none) ⟨0, "", "", 0, 0⟩,
               doRequest 7 (.transportErr "connection refused") ⟨0, "", "", 0, 0⟩,
               doRequest 9 (.success 404 none) ⟨0, "", "", 0, 0⟩]).errors :=
  ⟨by decide,
    (collect_count_partition _).2.2.2.2.2 (by decide)⟩

/-- C1 counterexample: a drained success with status 600 yields an empty
status class AND an empty error, so the consumed record joins neither
map: the count is 1 while `Σ codes + Σ errors = 0`, refuting both
"count = Σ codes + Σ errors" and "the empty class joins the error bucket
empty-keyed". -/
theorem collect_count_600_counterexample :
    (doRequest 5 (.success 600 none) ⟨0, "", "", 0, 0⟩).code = "" ∧
    (doRequest 5 (.success 600 none) ⟨0, "", "", 0, 0⟩).error = "" ∧
    (collect [doRequest 5 (.success 600 none) ⟨0, "", "", 0, 0⟩]).latencyStats.count = 1 ∧
    mapSum (collect [doRequest 5 (.success 600 none) ⟨0, "", "", 0, 0⟩]).codes = 0 ∧
    mapSum (collect [doRequest 5 (.success 600 none) ⟨0, "", "", 0, 0⟩]).errors = 0 ∧
    (1 : Int) ≠ 0 + 0 := by
  refine ⟨rfl, rfl, by decide, by decide, by decide, by decide⟩

/-! ## Closing the record queue exactly once
(part_000 `closeRecord` lines 242-246; report.go `Collect` lines 138-143)

`Requester.closeRecord` guards `close(recordChan)` with a `sync.Once`:
the once-flag and the number of actual `close` calls are the state. -/

structure CloseState where
  onceDone : Bool
  closeCount : Nat
deriving DecidableEq, Repr

/-- `closeRecord`: runs `close` only if the once-flag is still clear. -/
def closeRecord (s : CloseState) : CloseState :=
  if s.onceDone then s else { onceDone := true, closeCount := s.closeCount + 1 }

/-- State after `n` invocations of `closeRecord` (the arming paths -
signal handler, duration timer, natural end of `Run` - each call it once
or more, in any order). -/
def closeRecordN : Nat → CloseState
  | 0 => ⟨false, 0⟩
  | n + 1 => closeRecord (closeRecordN n)

/-- The aggregator loop of `Collect`: it consumes queued records until it
observes the queue closed, and on that single exit path closes its own
done channel (the returned count of `close(s.doneChan)` executions). -/
def collectRun : SRState → List ReportRecord → SRState × Nat
  | s, [] => (s, 1)
  | s, r :: rs => collectRun (collectStep s r) rs

theorem closeRecord_idem (s : CloseState) : closeRecord (closeRecord s) = closeRecord s := by
  by_cases h : s.onceDone <;> simp [closeRecord, h]

theorem closeRecordN_closed : ∀ n, 1 ≤ n →
    (closeRecordN n).onceDone = true ∧ (closeRecordN n).closeCount = 1 := by
  intro n
  induction n with
  | zero => intro h; omega
  | succ m ih =>
    intro _
    by_cases hm : 1 ≤ m
    · have := ih hm
      simp [closeRecordN, closeRecord, this.1, this.2]
    · have hm0 : m = 0 := by omega
      subst hm0
      simp [closeRecordN, closeRecord]

theorem collectRun_done_once : ∀ (records : List ReportRecord) (s : SRState),
    (collectRun s records).2 = 1 := by
  intro records
  induction records with
  | nil => intro s; rfl
  | cons r rs ih => intro s; exact ih (collectStep s r)

/-- C4: `closeRecord` is idempotent, so the record queue is closed
exactly once no matter how many arming paths (signal handler, duration
timer, request-count exhaustion plus the end of `Run`) invoke it, in any
order; and the aggregator, upon observing the queue closed, closes its
done channel exactly once on its single exit path. -/
theorem closeRecord_once_spec (n : Nat) (records : List ReportRecord) (s : SRState)
    (hn : 1 ≤ n) :
    (∀ t : CloseState, closeRecord (closeRecord t) = closeRecord t) ∧
    (closeRecordN n).onceDone = true ∧
    (closeRecordN n).closeCount = 1 ∧
    (collectRun s records).2 = 1 :=
  ⟨closeRecord_idem, (closeRecordN_closed n hn).1, (closeRecordN_closed n hn).2,
    collectRun_done_once records s⟩

/-- Witness for C4: three competing close invocations still close the
queue exactly once; the aggregator consuming two records closes done
exactly once. -/
theorem closeRecord_once_spec_witness :
    1 ≤ 3 ∧
    ((∀ t : CloseState, closeRecord (closeRecord t) = closeRecord t) ∧
      (closeRecordN 3).onceDone = true ∧
      (closeRecordN 3).closeCount = 1 ∧
      (collectRun collectInit
        [⟨5, "2xx", "", 0, 0⟩, ⟨6, "", "boom", 0, 0⟩]).2 = 1) :=
  ⟨by decide, closeRecord_once_spec 3 [⟨5, "2xx", "", 0, 0⟩, ⟨6, "", "boom", 0, 0⟩]
    collectInit (by decide)⟩

/-! ## The worker pool and the request semaphore (part_000 `Run`,
lines 315-376)

The loop body of one worker iteration is modelled as a transition on a
global state; the atomic decrement serialises all workers, so an
arbitrary interleaving is a fold over per-iteration inputs.  An input's
`exit` flag covers both a worker that observed `ctx.Done()` (or a
rate-limiter wait error) and iterations that never happen; `fileFail`
is whether `os.Open(bodyFile)` fails in that iteration. -/

structure WorkerInput where
  exit : Bool
  fileFail : Bool
deriving DecidableEq, Repr

structure RunSt where
  sem : Int
  attempts : Nat
  fileErrors : Nat
  cancelled : Bool
deriving DecidableEq, Repr

/-- One worker-loop iteration: the `r.requests > 0` guard short-circuits
the atomic decrement; a decrement below zero cancels the context and
exits without issuing a request; otherwise a file-open failure sends an
error record and continues, and every other pass issues one request
(`DoRequest`). -/
def workerIter (requests : Int) (hasBodyFile : Bool) (s : RunSt) (inp : WorkerInput) : RunSt :=
  if inp.exit then s
  else if 0 < requests then
    if s.sem - 1 < 0 then { s with sem := s.sem - 1, cancelled := true }
    else if hasBodyFile && inp.fileFail then
      { s with sem := s.sem - 1, fileErrors := s.fileErrors + 1 }
    else { s with sem := s.sem - 1, attempts := s.attempts + 1 }
  else if hasBodyFile && inp.fileFail then { s with fileErrors := s.fileErrors + 1 }
  else { s with attempts := s.attempts + 1 }

/-- The run state after an arbitrary interleaving of worker iterations,
starting from `semaphore := r.requests`. -/
def runWorkers (requests : Int) (hasBodyFile : Bool) (inputs : List WorkerInput) : RunSt :=
  inputs.foldl (workerIter requests hasBodyFile) ⟨requests, 0, 0, false⟩

/-- The inductive invariant of the semaphore for a bound `N > 0`. -/
def semInv (N : Int) (s : RunSt) : Prop :=
  s.sem ≤ N ∧
  (0 ≤ s.sem → (s.attempts : Int) + s.fileErrors = N - s.sem) ∧
  (s.sem < 0 → (s.attempts : Int) + s.fileErrors = N) ∧
  (s.cancelled = true → s.sem < 0)

theorem workerIter_exit (requests : Int) (bf : Bool) (s : RunSt) (inp : WorkerInput)
    (h : inp.exit = true) : workerIter requests bf s inp = s := by
  simp [workerIter, h]

theorem workerIter_cancel (requests : Int) (bf : Bool) (s : RunSt) (inp : WorkerInput)
    (h : inp.exit = false) (hr : 0 < requests) (hs : s.sem - 1 < 0) :
    workerIter requests bf s inp = { s with sem := s.sem - 1, cancelled := true } := by
  simp [workerIter, h, hr, hs]

theorem workerIter_fileErr (requests : Int) (bf : Bool) (s : RunSt) (inp : WorkerInput)
    (h : inp.exit = false) (hr : 0 < requests) (hs : ¬s.sem - 1 < 0)
    (hf : (bf && inp.fileFail) = true) :
    workerIter requests bf s inp =
      { s with sem := s.sem - 1, fileErrors := s.fileErrors + 1 } := by
  simp [workerIter, h, hr, hs, hf]

theorem workerIter_attempt (requests : Int) (bf : Bool) (s : RunSt) (inp : WorkerInput)
    (h : inp.exit = false) (hr : 0 < requests) (hs : ¬s.sem - 1 < 0)
    (hf : (bf && inp.fileFail) = false) :
    workerIter requests bf s inp =
      { s with sem := s.sem - 1, attempts := s.attempts + 1 } := by
  simp [workerIter, h, hr, hs, hf]

theorem semInv_step (N : Int) (hN : 0 < N) (bf : Bool) (s : RunSt) (inp : WorkerInput)
    (h : semInv N s) : semInv N (workerIter N bf s inp) := by
  obtain ⟨h1, h2, h3, h4⟩ := h
  by_cases he : inp.exit = true
  · rw [workerIter_exit N bf s inp he]
    exact ⟨h1, h2, h3, h4⟩
  · have he' : inp.exit = false := by
      cases hval : inp.exit
      · rfl
      · exact absurd hval he
    by_cases hneg : s.sem - 1 < 0
    · rw [workerIter_cancel N bf s inp he' hN hneg]
      refine ⟨by dsimp only; omega, by dsimp only; intro h0; omega, ?_, by dsimp only; omega⟩
      dsimp only
      intro _
      by_cases hz : 0 ≤ s.sem
      · have := h2 hz; omega
      · have := h3 (by omega); omega
    · have hold := h2 (by omega)
      by_cases hf : (bf && inp.fileFail) = true
      · rw [workerIter_fileErr N bf s inp he' hN hneg hf]
        refine ⟨by dsimp only; omega, by dsimp only; intro _; push_cast; omega,
          by dsimp only; intro h0; omega, ?_⟩
        dsimp only
        intro hc
        have := h4 hc
        omega
      · have hf' : (bf && inp.fileFail) = false := by
          cases hval : (bf && inp.fileFail)
          · rfl
          · exact absurd hval hf
        rw [workerIter_attempt N bf s inp he' hN hneg hf']
        refine ⟨by dsimp only; omega, by dsimp only; intro _; push_cast; omega,
          by dsimp only; intro h0; omega, ?_⟩
        dsimp only
        intro hc
        have := h4 hc
        omega

theorem semInv_runWorkers (N : Int) (hN : 0 < N) (bf : Bool) :
    ∀ (inputs : List WorkerInput) (s : RunSt), semInv N s →
      semInv N (inputs.foldl (workerIter N bf) s) := by
  intro inputs
  induction inputs with
  | nil => intro s h; simpa using h
  | cons i t ih =>
    intro s h
    exact ih (workerIter N bf s i) (semInv_step N hN bf s i h)

theorem workerIter_inactive (requests : Int) (hle : requests ≤ 0) (bf : Bool)
    (s : RunSt) (inp : WorkerInput) :
    (workerIter requests bf s inp).sem = s.sem ∧
    (workerIter requests bf s inp).cancelled = s.cancelled := by
  have hr : ¬(0 < requests) := by omega
  obtain ⟨ex, ff⟩ := inp
  cases ex <;> cases bf <;> cases ff <;> simp [workerIter, hr]

theorem runWorkers_inactive (requests : Int) (hle : requests ≤ 0) (bf : Bool) :
    ∀ (inputs : List WorkerInput) (s : RunSt),
      (inputs.foldl (workerIter requests bf) s).sem = s.sem ∧
      (inputs.foldl (workerIter requests bf) s).cancelled = s.cancelled := by
  intro inputs
  induction inputs with
  | nil => intro s; exact ⟨rfl, rfl⟩
  | cons i t ih =>
    intro s
    have hstep := workerIter_inactive requests hle bf s i
    have := ih (workerIter requests bf s i)
    rw [List.foldl_cons]
    exact ⟨by rw [this.1, hstep.1], by rw [this.2, hstep.2]⟩

theorem semInv_init (N : Int) (hN : 0 < N) : semInv N ⟨N, 0, 0, false⟩ := by
  refine ⟨le_refl N, by dsimp only; intro h; omega, by dsimp only; intro h; omega, ?_⟩
  dsimp only
  intro h
  simp at h

/-- C2 (amended): with `N > 0`, requests issued plus file-open-failure
records never exceed `N` (each consumes one semaphore slot); a worker
whose decrement goes below zero cancels the context and exits without
issuing a request; when the run completes naturally (the semaphore was
driven negative) requests-plus-file-failures is exactly `N`, and exactly
`N` requests are issued when additionally no file-open failure occurred;
with `N ≤ 0` (the `-1` "unbounded" default; `N = 0` is rejected earlier
by the `requests ≥ concurrency` check) the semaphore is inactive: it is
never decremented and never cancels the run.  (The claim's
"attempts = N on natural completion" without the file-failure correction
is refuted by the counterexample.) -/
theorem runWorkers_semaphore_spec (N : Int) (bf : Bool) (inputs : List WorkerInput)
    (hN : 0 < N) :
    ((runWorkers N bf inputs).attempts : Int) + (runWorkers N bf inputs).fileErrors ≤ N ∧
    ((runWorkers N bf inputs).cancelled = true →
      ((runWorkers N bf inputs).attempts : Int) + (runWorkers N bf inputs).fileErrors = N) ∧
    ((runWorkers N bf inputs).cancelled = true → (runWorkers N bf inputs).fileErrors = 0 →
      ((runWorkers N bf inputs).attempts : Int) = N) ∧
    (∀ (s : RunSt) (inp : WorkerInput), inp.exit = false → s.sem - 1 < 0 →
      workerIter N bf s inp = { s with sem := s.sem - 1, cancelled := true }) ∧
    (∀ (M : Int), M ≤ 0 → ∀ (inputs2 : List WorkerInput),
      (runWorkers M bf inputs2).sem = M ∧ (runWorkers M bf inputs2).cancelled = false) := by
  have hinv : semInv N (runWorkers N bf inputs) :=
    semInv_runWorkers N hN bf inputs ⟨N, 0, 0, false⟩ (semInv_init N hN)
  obtain ⟨h1, h2, h3, h4⟩ := hinv
  refine ⟨?_, ?_, ?_, ?_, ?_⟩
  · by_cases hz : 0 ≤ (runWorkers N bf inputs).sem
    · have := h2 hz; omega
    · have := h3 (by omega); omega
  · intro hc
    exact h3 (h4 hc)
  · intro hc hf
    have := h3 (h4 hc)
    omega
  · intro s inp hex hneg
    exact workerIter_cancel N bf s inp hex hN hneg
  · intro M hM inputs2
    exact runWorkers_inactive M hM bf inputs2 ⟨M, 0, 0, false⟩

/-- Witness for C2 (amended): `N = 2` with three plain iterations — two
requests are issued and the third decrement drives the semaphore
negative, cancelling the run with exactly `N` attempts; the `M = 0` and
`M = -1` semaphores stay inactive. -/
theorem runWorkers_semaphore_spec_witness :
    (0 : Int) < 2 ∧
    ((runWorkers 2 false [⟨false, false⟩, ⟨false, false⟩, ⟨false, false⟩]).cancelled = true →
      ((runWorkers 2 false [⟨false, false⟩, ⟨false, false⟩, ⟨false, false⟩]).attempts : Int) +
        (runWorkers 2 false [⟨false, false⟩, ⟨false, false⟩, ⟨false, false⟩]).fileErrors = 2) ∧
    (runWorkers 2 false [⟨false, false⟩, ⟨false, false⟩, ⟨false, false⟩]).cancelled = true ∧
    (runWorkers 2 false [⟨false, false⟩, ⟨false, false⟩, ⟨false, false⟩]).attempts = 2 ∧
    (runWorkers 0 false [⟨false, false⟩]).sem = 0 ∧
    (runWorkers 0 false [⟨false, false⟩]).cancelled = false :=
  ⟨by decide,
    (runWorkers_semaphore_spec 2 false [⟨false, false⟩, ⟨false, false⟩, ⟨false, false⟩]
      (by decide)).2.1,
    by decide, by decide, by decide, by decide⟩

/-- C2 counterexample: `N = 1` with a body file whose open fails once:
the failure consumes the only semaphore slot, the next decrement goes
negative and cancels the run (natural completion), yet zero requests
were issued — refuting "attempts = N when the run completes
naturally". -/
theorem runWorkers_fileFail_counterexample :
    (runWorkers 1 true [⟨false, true⟩, ⟨false, false⟩]).cancelled = true ∧
    (runWorkers 1 true [⟨false, true⟩, ⟨false, false⟩]).fileErrors = 1 ∧
    (runWorkers 1 true [⟨false, true⟩, ⟨false, false⟩]).attempts = 0 ∧
    (0 : Int) ≠ 1 := by
  refine ⟨by decide, by decide, by decide, by decide⟩

/-! ## The --rate flag parser (main.go, lines 240-300)

`rateFlagValue.Set` uses `strconv.Atoi` and `time.ParseDuration`; both
are modelled below, translated from the Go standard library (Atoi is
`ParseInt(s, 10, 64)`; ParseDuration is the `leadingInt` /
`leadingFraction` loop of time/format.go, with its int64 overflow
checks; the float64 fraction scaling `int64(float64(f)*(float64
(unit)/scale))` is modelled by exact integer division, which agrees
wherever the float computation is exact).  `rate.Limit` (a float64) is
modelled as `ℚ`.  The recursion over duration components is driven by a
fuel counter of `length + 1`, an upper bound on the number of
components, since every component consumes at least one character. -/

def isDigitCh (c : Char) : Bool := decide ('0' ≤ c ∧ c ≤ '9')

def maxI64 : Int := 9223372036854775807

/-- `leadingInt` from time/format.go: consumes leading digits into an
int64, failing on overflow. -/
def leadingInt : List Char → Int → Option (Int × List Char)
  | [], x => some (x, [])
  | c :: rest, x =>
    if isDigitCh c then
      if maxI64 / 10 < x then none
      else
        let x2 := x * 10 + ((c.toNat : Int) - ('0'.toNat : Int))
        if maxI64 < x2 then none
        else leadingInt rest x2
    else some (x, c :: rest)

/-- `leadingFraction` from time/format.go: consumes digits after the
decimal point, freezing the value (but still consuming) once it would
overflow. -/
def leadingFraction : List Char → Int → Int → Bool → Int × Int × List Char
  | [], x, scale, _ => (x, scale, [])
  | c :: rest, x, scale, overflow =>
    if isDigitCh c then
      if overflow then leadingFraction rest x scale overflow
      else if maxI64 / 10 < x then leadingFraction rest x scale true
      else
        let y := x * 10 + ((c.toNat : Int) - ('0'.toNat : Int))
        if maxI64 < y then leadingFraction rest x scale true
        else leadingFraction rest y (scale * 10) overflow
    else (x, scale, c :: rest)

/-- The `unitMap` of time/format.go, in nanoseconds.  (Both the micro
sign and the Greek mu spell microseconds.) -/
def unitNanos (u : List Char) : Option Int :=
  if u = "ns".data then some 1
  else if u = "us".data then some 1000
  else if u = "µs".data then some 1000
  else if u = "μs".data then some 1000
  else if u = "ms".data then some 1000000
  else if u = "s".data then some 1000000000
  else if u = "m".data then some 60000000000
  else if u = "h".data then some 3600000000000
  else none

/-- A unit character: anything that is not a digit and not a period
(the unit-scanning loop of ParseDuration breaks on `[0-9.]`). -/
def isUnitCh (c : Char) : Bool := !(c = '.' || isDigitCh c)

/-- The per-component loop of `time.ParseDuration` (after the sign):
each iteration parses `[0-9]*(\.[0-9]*)?unit`, scales the value into
nanoseconds with the library's overflow checks, and accumulates.  `fuel`
bounds the number of components; it never runs out when called with
`l.length + 1` because each component consumes at least its unit
character. -/
def parseDurChunks : Nat → List Char → Int → Option Int
  | 0, _, _ => none
  | _ + 1, [], d => some d
  | fuel + 1, c :: rest, d =>
    if c = '.' ∨ isDigitCh c then
      match leadingInt (c :: rest) 0 with
      | none => none
      | some (v, s1) =>
        let pre : Bool := decide (s1.length ≠ (c :: rest).length)
        let fr : Int × Int × List Char × Bool :=
          match s1 with
          | '.' :: t1 =>
            let r := leadingFraction t1 0 1 false
            (r.1, r.2.1, r.2.2, decide (r.2.2.length ≠ t1.length))
          | _ => (0, 1, s1, false)
        let f := fr.1
        let scale := fr.2.1
        let s2 := fr.2.2.1
        let post := fr.2.2.2
        if !pre && !post then none
        else
          let u := s2.takeWhile isUnitCh
          let s3 := s2.dropWhile isUnitCh
          if u = [] then none
          else
            match unitNanos u with
            | none => none
            | some unit =>
              if maxI64 / unit < v then none
              else
                let v2 := v * unit
                let v3 := if 0 < f then v2 + (f * unit) / scale else v2
                if maxI64 < v3 then none
                else if maxI64 < d + v3 then none
                else parseDurChunks fuel s3 (d + v3)
    else none

/-- `time.ParseDuration`, returning the duration in nanoseconds. -/
def parseDuration (s : String) : Option Int :=
  let l := s.data
  let sgn : Bool × List Char :=
    match l with
    | '-' :: t => (true, t)
    | '+' :: t => (false, t)
    | _ => (false, l)
  let neg := sgn.1
  let l1 := sgn.2
  if l1 = ['0'] then some 0
  else if l1 = [] then none
  else
    match parseDurChunks (l1.length + 1) l1 0 with
    | none => none
    | some d => some (if neg then -d else d)

/-- `strconv.Atoi` = `ParseInt(s, 10, 64)`: optional sign, then decimal
digits only, with the 64-bit range check (a range error surfaces as a
non-nil err, which `Set` turns into its format error). -/
def atoiInt (s : String) : Option Int :=
  let sgn : Bool × List Char :=
    match s.data with
    | '-' :: t => (true, t)
    | '+' :: t => (false, t)
    | l => (false, l)
  let neg := sgn.1
  let digits := sgn.2
  if digits = [] then none
  else if digits.all isDigitCh then
    let n : Nat := digits.foldl (fun acc c => acc * 10 + (c.toNat - '0'.toNat)) 0
    if neg then
      if n ≤ 9223372036854775808 then some (-(n : Int)) else none
    else
      if n ≤ 9223372036854775807 then some (n : Int) else none
  else none

/-- `strings.SplitN(v, "/", 2)`: the piece before the first slash and
everything after it, or the whole string when it has no slash. -/
def breakSlash : List Char → Option (List Char × List Char)
  | [] => none
  | c :: t =>
    if c = '/' then some ([], t)
    else
      match breakSlash t with
      | none => none
      | some (a, b) => some (c :: a, b)

def splitN2 (v : String) : List String :=
  match breakSlash v.data with
  | none => [v]
  | some (a, b) => [String.mk a, String.mk b]

/-- `ps` after the `switch len(ps)` that appends `"1s"` to a slash-less
rate string. -/
def ratePieces (v : String) : List String :=
  let ps := splitN2 v
  if ps.length = 1 then ps ++ ["1s"] else ps

/-- The `switch ps[1]` that turns a bare unit into `1<unit>` (note: the
Greek-mu spelling is NOT in this list, only the micro sign). -/
def expandUnit (u : String) : String :=
  match u with
  | "ns" => "1" ++ u
  | "us" => "1" ++ u
  | "µs" => "1" ++ u
  | "ms" => "1" ++ u
  | "s" => "1" ++ u
  | "m" => "1" ++ u
  | "h" => "1" ++ u
  | _ => u

/-- The mutable `rateFlagValue` struct of main.go. -/
structure RateFlagValue where
  infinity : Bool
  limit : ℚ
  v : String
deriving DecidableEq, Repr

/-- `(time.Duration).Seconds()` (exact: `float64(sec)+float64(nsec)/1e9`
recombines to `d/1e9` over ℚ). -/
def durationSeconds (d : Int) : ℚ := (d : ℚ) / 1000000000

/-- `rateFlagValue.Set` applied to the fresh (zero) value kingpin hands
it: `"infinity"` and a zero frequency set the infinity flag and return
early (leaving `limit` and `v` at their zero values); otherwise the
limit is `freq / per.Seconds()` and `v` records the accepted string.
`none` is the `--rate format ...` error (the final catch-all branch is
the source's `case 0: return retErr`, unreachable for `SplitN`). -/
def rateFlagSet (s : String) : Option RateFlagValue :=
  if s = "infinity" then some { infinity := true, limit := 0, v := "" }
  else
    match ratePieces s with
    | [] => none
    | [_] => none
    | p0 :: p1 :: _ =>
      match atoiInt p0 with
      | none => none
      | some freq =>
        if freq = 0 then some { infinity := true, limit := 0, v := "" }
        else
          match parseDuration (expandUnit p1) with
          | none => none
          | some per => some { infinity := false
                               limit := (freq : ℚ) / durationSeconds per
                               v := s }

/-- `rateFlagValue.String`. -/
def rateFlagString (f : RateFlagValue) : String := f.v

/-- `rateFlagValue.Limit`: `nil` (no limit) exactly when the infinity
flag is set. -/
def rateFlagLimit (f : RateFlagValue) : Option ℚ :=
  if f.infinity then none else some f.limit

theorem ratePieces_pair (s : String) : ∃ p0 p1, ratePieces s = [p0, p1] := by
  unfold ratePieces splitN2
  cases h : breakSlash s.data with
  | none => exact ⟨s, "1s", by simp⟩
  | some ab =>
    obtain ⟨a, b⟩ := ab
    exact ⟨String.mk a, String.mk b, by simp⟩

theorem ratePieces_of_two (s a b : String) (hp : splitN2 s = [a, b]) :
    ratePieces s = [a, b] := by
  simp [ratePieces, hp]

theorem ratePieces_of_one (s : String) (hp : splitN2 s = [s]) :
    ratePieces s = [s, "1s"] := by
  simp [ratePieces, hp]

theorem rateFlagSet_zero_freq (s p0 p1 : String)
    (hs : s ≠ "infinity") (hrp : ratePieces s = [p0, p1])
    (ha : atoiInt p0 = some 0) :
    rateFlagSet s = some ⟨true, 0, ""⟩ := by
  simp [rateFlagSet, hs, hrp, ha]

theorem rateFlagSet_duration_form (s a b : String) (n du : Int)
    (hs : s ≠ "infinity") (hp : splitN2 s = [a, b]) (ha : atoiInt a = some n)
    (hn : n ≠ 0) (hd : parseDuration (expandUnit b) = some du) :
    rateFlagSet s = some ⟨false, (n : ℚ) / durationSeconds du, s⟩ := by
  have hrp := ratePieces_of_two s a b hp
  simp [rateFlagSet, hs, hrp, ha, hn, hd]

theorem rateFlagSet_bare_int (s : String) (n : Int) (hs : s ≠ "infinity")
    (hp : splitN2 s = [s]) (ha : atoiInt s = some n) (hn : n ≠ 0) :
    rateFlagSet s = some ⟨false, (n : ℚ), s⟩ := by
  have hrp := ratePieces_of_one s hp
  have hd : parseDuration (expandUnit "1s") = some 1000000000 := by decide
  simp [rateFlagSet, hs, hrp, ha, hn, hd, durationSeconds]

theorem rateFlagSet_none_iff (s : String) :
    rateFlagSet s = none ↔
      (s ≠ "infinity" ∧
        ∃ p0 p1, ratePieces s = [p0, p1] ∧
          (atoiInt p0 = none ∨
            (∃ n : Int, atoiInt p0 = some n ∧ n ≠ 0 ∧
              parseDuration (expandUnit p1) = none))) := by
  obtain ⟨p0, p1, hrp⟩ := ratePieces_pair s
  by_cases hs : s = "infinity"
  · simp [rateFlagSet, hs]
  · cases hatoi : atoiInt p0 with
    | none =>
      simp only [rateFlagSet, hs, hrp, hatoi, if_neg, ne_eq, not_false_iff, true_and]
      constructor
      · intro _
        exact ⟨p0, p1, rfl, Or.inl hatoi⟩
      · intro _
        trivial
    | some freq =>
      by_cases hf : freq = 0
      · subst hf
        constructor
        · intro hcon
          rw [rateFlagSet_zero_freq s p0 p1 hs hrp hatoi] at hcon
          cases hcon
        · rintro ⟨_, q0, q1, hq, hbad⟩
          rw [hrp] at hq
          injection hq with h0 hq2
          injection hq2 with h1 _
          subst h0; subst h1
          rcases hbad with hno | ⟨n, hsome, hn, _⟩
          · rw [hatoi] at hno; cases hno
          · rw [hatoi] at hsome
            injection hsome with hfn
            exact absurd hfn.symm hn
      · cases hpd : parseDuration (expandUnit p1) with
        | none =>
          simp only [rateFlagSet, hs, hrp, hatoi, hf, hpd, if_neg, if_false, ne_eq,
            not_false_iff, true_and]
          constructor
          · intro _
            exact ⟨p0, p1, rfl, Or.inr ⟨freq, hatoi, hf, hpd⟩⟩
          · intro _
            simp [hf]
        | some du =>
          constructor
          · intro hcon
            have heq : rateFlagSet s = some ⟨false, (freq : ℚ) / durationSeconds du, s⟩ := by
              simp [rateFlagSet, hs, hrp, hatoi, hf, hpd]
            rw [heq] at hcon
            cases hcon
          · rintro ⟨_, q0, q1, hq, hbad⟩
            rw [hrp] at hq
            injection hq with h0 hq2
            injection hq2 with h1 _
            subst h0; subst h1
            rcases hbad with hno | ⟨n, hsome, hn, hparse⟩
            · rw [hatoi] at hno; cases hno
            · rw [hatoi] at hsome
              injection hsome with hfn
              subst hfn
              rw [hpd] at hparse
              cases hparse

/-- The length in seconds of each unit the `switch ps[1]` recognises
(claim side of C7). -/
def rateUnitSeconds (u : String) : ℚ :=
  if u = "ns" then 1 / 1000000000
  else if u = "us" then 1 / 1000000
  else if u = "µs" then 1 / 1000000
  else if u = "ms" then 1 / 1000
  else if u = "s" then 1
  else if u = "m" then 60
  else if u = "h" then 3600
  else 0

theorem rateFlagSet_unit_form (s a u : String) (n : Int)
    (hs : s ≠ "infinity") (hp : splitN2 s = [a, u]) (ha : atoiInt a = some n)
    (hn : n ≠ 0) (hm : u ∈ (["ns", "us", "µs", "ms", "s", "m", "h"] : List String)) :
    rateFlagSet s = some ⟨false, (n : ℚ) / rateUnitSeconds u, s⟩ := by
  simp only [List.mem_cons, List.not_mem_nil, or_false] at hm
  rcases hm with rfl | rfl | rfl | rfl | rfl | rfl | rfl
  · rw [rateFlagSet_duration_form s a "ns" n 1 hs hp ha hn (by decide),
      show rateUnitSeconds "ns" = 1 / 1000000000 from rfl]
    norm_num [durationSeconds]
  · rw [rateFlagSet_duration_form s a "us" n 1000 hs hp ha hn (by decide),
      show rateUnitSeconds "us" = 1 / 1000000 from rfl]
    norm_num [durationSeconds]
  · rw [rateFlagSet_duration_form s a "µs" n 1000 hs hp ha hn (by decide),
      show rateUnitSeconds "µs" = 1 / 1000000 from rfl]
    norm_num [durationSeconds]
  · rw [rateFlagSet_duration_form s a "ms" n 1000000 hs hp ha hn (by decide),
      show rateUnitSeconds "ms" = 1 / 1000 from rfl]
    norm_num [durationSeconds]
  · rw [rateFlagSet_duration_form s a "s" n 1000000000 hs hp ha hn (by decide),
      show rateUnitSeconds "s" = 1 from rfl]
    norm_num [durationSeconds]
  · rw [rateFlagSet_duration_form s a "m" n 60000000000 hs hp ha hn (by decide),
      show rateUnitSeconds "m" = 60 from rfl]
    norm_num [durationSeconds]
  · rw [rateFlagSet_duration_form s a "h" n 3600000000000 hs hp ha hn (by decide),
      show rateUnitSeconds "h" = 3600 from rfl]
    norm_num [durationSeconds]

/-- C7: `--rate` parsing maps `"infinity"` and any zero frequency to the
no-limit value (whose `Limit()` is `nil`); a bare integer `N` to a limit
of `N` per second; `N/unit` for the seven units to `N` divided by the
unit's length in seconds; `N/<duration>` to `N` divided by the
duration in seconds (`"10/ms"` parses to 10000/s); and a string is
rejected exactly when it is none of these forms: its frequency piece is
not an integer, or the frequency is nonzero and its duration piece does
not parse. -/
theorem rateFlag_parse_spec :
    (rateFlagSet "infinity" = some ⟨true, 0, ""⟩) ∧
    (∀ f, rateFlagLimit f = none ↔ f.infinity = true) ∧
    (∀ s p0 p1, s ≠ "infinity" → ratePieces s = [p0, p1] → atoiInt p0 = some 0 →
      rateFlagSet s = some ⟨true, 0, ""⟩) ∧
    (∀ s n, s ≠ "infinity" → splitN2 s = [s] → atoiInt s = some n → n ≠ 0 →
      rateFlagSet s = some ⟨false, (n : ℚ), s⟩) ∧
    (∀ s a u n, s ≠ "infinity" → splitN2 s = [a, u] → atoiInt a = some n → n ≠ 0 →
      u ∈ (["ns", "us", "µs", "ms", "s", "m", "h"] : List String) →
      rateFlagSet s = some ⟨false, (n : ℚ) / rateUnitSeconds u, s⟩) ∧
    (∀ s a b n du, s ≠ "infinity" → splitN2 s = [a, b] → atoiInt a = some n → n ≠ 0 →
      parseDuration (expandUnit b) = some du →
      rateFlagSet s = some ⟨false, (n : ℚ) / durationSeconds du, s⟩) ∧
    (rateFlagSet "10/ms" = some ⟨false, 10000, "10/ms"⟩) ∧
    (∀ s, rateFlagSet s = none ↔
      (s ≠ "infinity" ∧
        ∃ p0 p1, ratePieces s = [p0, p1] ∧
          (atoiInt p0 = none ∨
            (∃ n : Int, atoiInt p0 = some n ∧ n ≠ 0 ∧
              parseDuration (expandUnit p1) = none)))) := by
  refine ⟨rfl, ?_, ?_, ?_, ?_, ?_, ?_, rateFlagSet_none_iff⟩
  · intro f
    cases hf : f.infinity <;> simp [rateFlagLimit, hf]
  · intro s p0 p1 hs hrp ha
    exact rateFlagSet_zero_freq s p0 p1 hs hrp ha
  · intro s n hs hp ha hn
    exact rateFlagSet_bare_int s n hs hp ha hn
  · intro s a u n hs hp ha hn hm
    exact rateFlagSet_unit_form s a u n hs hp ha hn hm
  · intro s a b n du hs hp ha hn hd
    exact rateFlagSet_duration_form s a b n du hs hp ha hn hd
  · rw [rateFlagSet_duration_form "10/ms" "10" "ms" 10 1000000 (by decide) (by decide)
      (by decide) (by decide) (by decide)]
    norm_num [durationSeconds]

/-- Witness for C7 at `"50"` (bare integer) and `"10/ms"`. -/
theorem rateFlag_parse_spec_witness :
    rateFlagSet "50" = some ⟨false, ((50 : Int) : ℚ), "50"⟩ ∧
    rateFlagSet "10/ms" = some ⟨false, 10000, "10/ms"⟩ :=
  ⟨rateFlag_parse_spec.2.2.2.1 "50" 50 (by decide) (by decide) (by decide) (by decide),
    rateFlag_parse_spec.2.2.2.2.2.2.1⟩

/-- C8 (amended): for every accepted rate string with a nonzero finite
frequency, `String()` returns the input string verbatim and re-parsing
it yields the same value and limit (parse→format→parse is the
identity).  For `"infinity"` and zero frequencies, however, `Set`
returns before assigning `f.v`, so `String()` yields the (zero-value)
empty string, which does NOT re-parse — see the counterexample. -/
theorem rateFlag_roundtrip (v : String) (r : RateFlagValue)
    (hset : rateFlagSet v = some r) (hfin : r.infinity = false) :
    rateFlagString r = v ∧ rateFlagSet (rateFlagString r) = some r := by
  by_cases hv : v = "infinity"
  · subst hv
    have hr : r = ⟨true, 0, ""⟩ := by
      have h := hset
      rw [show rateFlagSet "infinity" = some ⟨true, 0, ""⟩ from rfl] at h
      injection h with h'
      exact h'.symm
    rw [hr] at hfin
    cases hfin
  · obtain ⟨p0, p1, hrp⟩ := ratePieces_pair v
    cases hatoi : atoiInt p0 with
    | none =>
      have : rateFlagSet v = none := by simp [rateFlagSet, hv, hrp, hatoi]
      rw [this] at hset
      cases hset
    | some freq =>
      by_cases hf : freq = 0
      · subst hf
        have heq := rateFlagSet_zero_freq v p0 p1 hv hrp hatoi
        rw [heq] at hset
        injection hset with h'
        rw [← h'] at hfin
        cases hfin
      · cases hpd : parseDuration (expandUnit p1) with
        | none =>
          have : rateFlagSet v = none := by simp [rateFlagSet, hv, hrp, hatoi, hf, hpd]
          rw [this] at hset
          cases hset
        | some du =>
          have heq : rateFlagSet v =
              some ⟨false, (freq : ℚ) / durationSeconds du, v⟩ := by
            simp [rateFlagSet, hv, hrp, hatoi, hf, hpd]
          rw [heq] at hset
          injection hset with h'
          subst h'
          exact ⟨rfl, heq⟩

/-- Witness for C8 (amended) at `"10/ms"`. -/
theorem rateFlag_roundtrip_witness :
    rateFlagString ⟨false, ((10 : Int) : ℚ) / durationSeconds 1000000, "10/ms"⟩ = "10/ms" ∧
    rateFlagSet "10/ms" =
      some ⟨false, ((10 : Int) : ℚ) / durationSeconds 1000000, "10/ms"⟩ :=
  rateFlag_roundtrip "10/ms" ⟨false, ((10 : Int) : ℚ) / durationSeconds 1000000, "10/ms"⟩
    (rateFlagSet_duration_form "10/ms" "10" "ms" 10 1000000 (by decide) (by decide)
      (by decide) (by decide) (by decide)) rfl

/-- C8 counterexample: `"infinity"` is accepted, but `Set` returns before
assigning `f.v`, so formatting yields the zero-value `""`, which fails
to parse — parse→format→parse is not a fixed point for every accepted
string. -/
theorem rateFlag_roundtrip_counterexample :
    rateFlagSet "infinity" = some ⟨true, 0, ""⟩ ∧
    rateFlagString ⟨true, 0, ""⟩ = "" ∧
    rateFlagSet "" = none :=
  ⟨rfl, rfl, by decide⟩

/-! ## The chart server handler (charts.go, lines 144-209) and the
Charts view (report.go, lines 263-281) -/

